import Mathlib

/-!
# Verification of the mqtt-gpio message dispatcher

A shallow embedding of the dispatch core of `src/mqtt-gpio.c` (the variant
with CMD/process support): the payload decoding, topic / link matching,
the GPIO write loop, the process (CMD) loop of `process_message`, and the
connect-retry backoff of `init_mosquitto`.

C strings are modelled as `List Char` (the list end stands for the NUL
terminator; config strings never contain NUL).  `strncmp` follows the C
semantics: compare at most `n` characters, stopping at the first
difference or at the end of either string.  The `fork()` results observed
by the parent are supplied by an oracle `forks : Nat → Int` consumed at a
cursor `fc` (a positive value is a child pid, a negative value a fork
failure; the parent never observes 0).  GPIO writes, spawns, synchronous
child waits and terminations are recorded as an `Event` trace.  The
`subInfo` and `gpioInfo` tables are read-only in `process_message` (the C
code contains no assignment to them there); only the `CMDinfo` fields
`pid` and `running` are written, so the dispatch function returns the
updated CMD table, the event trace and the new fork cursor.
-/

/-- C `strncmp(a, b, n)` on NUL-terminated strings modelled as lists:
compare at most `n` characters, stop at the first difference or at the
end (NUL) of either string. -/
def strncmp : List Char → List Char → Nat → Int
  | _, _, 0 => 0
  | [], [], _ + 1 => 0
  | [], _ :: _, _ + 1 => -1
  | _ :: _, [], _ + 1 => 1
  | a :: as, b :: bs, n + 1 =>
    if a = b then strncmp as bs n
    else if a.toNat < b.toNat then -1 else 1

/-- `GPIOinfo_t` of mqtt-gpio.c (the chip/line handles are hardware
resources outside the model; `gpioID_p`, `chipStr_p`, `pin` are kept). -/
structure GPIOinfo where
  gpioID : List Char
  chipStr : List Char
  pin : Int
deriving Repr, DecidableEq

/-- `CMDinfo_t` of mqtt-gpio.c. -/
structure CMDinfo where
  cmdID : List Char
  cmdStr : List Char
  oneshot : Bool
  valid : Bool
  pid : Int
  running : Bool
deriving Repr, DecidableEq

/-- `SUBinfo_t` of mqtt-gpio.c (a topic association). -/
structure SUBinfo where
  topicStr : List Char
  linkID : List Char
  qos : Int
  inv : Bool
deriving Repr, DecidableEq

/-- Observable side effects of one dispatch, in program order:
`setLine i v` is `gpiod_line_set_value` on the line of `gpioInfo[i]`;
`spawn i p` is a successful `fork`+`execl` of `cmdInfo[i]` as pid `p`;
`waitChild i p` is the synchronous `waitpid` of the oneshot branch;
`termChild i p` is the `kill(SIGTERM)`+`waitpid` of the OFF branch. -/
inductive Event where
  | setLine (gpioIdx : Nat) (value : Int)
  | spawn (cmdIdx : Nat) (pid : Int)
  | waitChild (cmdIdx : Nat) (pid : Int)
  | termChild (cmdIdx : Nat) (pid : Int)
deriving Repr, DecidableEq

def onChars : List Char := ("ON").toList
def offChars : List Char := ("OFF").toList

/-- The payload check of `process_message` (mqtt-gpio.c lines 1226-1234):
`val = -1; if (strncmp(payload, "ON", strlen(payload)) == 0) val = 1;
if (strncmp(payload, "OFF", strlen(payload)) == 0) val = 0;`.
Note the length argument is the length of the *payload*. -/
def decodePayload (p : List Char) : Int :=
  let v : Int := -1
  let v := if strncmp p onChars p.length = 0 then 1 else v
  let v := if strncmp p offChars p.length = 0 then 0 else v
  v

/-- The topic test of line 1237:
`strncmp(msg->topic, sub.topicStr, strlen(sub.topicStr)) == 0`. -/
def topicMatch (topic pat : List Char) : Bool :=
  strncmp topic pat pat.length = 0

/-- The link test of lines 1240 and 1261:
`strncmp(sub.linkID, binding.ID, strlen(binding.ID)) == 0`
(the length bound is the length of the *binding's* identifier). -/
def linkMatch (linkID bindID : List Char) : Bool :=
  strncmp linkID bindID bindID.length = 0

/-- The body of `if (subInfo[topic].inv) { if (val == 0) val = 1; else if
(val == 1) val = 0; }` (lines 1241-1246). -/
def invFlip (v : Int) : Int :=
  if v = 0 then 1 else if v = 1 then 0 else v

/-- The GPIO loop of `process_message` (lines 1239-1254) for one matching
association: for each matching GPIO binding, flip the *shared* `val` if
the association is inverted, then write `val` to the line.  Returns the
value `val` holds after the loop (the C variable is mutated in place) and
the writes performed. -/
def gpioScan (sub : SUBinfo) : List GPIOinfo → Nat → Int → Int × List Event
  | [], _, val => (val, [])
  | g :: gs, idx, val =>
    if linkMatch sub.linkID g.gpioID then
      let val1 := if sub.inv then invFlip val else val
      let rest := gpioScan sub gs (idx + 1) val1
      (rest.1, Event.setLine idx val1 :: rest.2)
    else
      gpioScan sub gs (idx + 1) val

/-- The CMD loop of `process_message` (lines 1257-1308) for one matching
association.  `val` is the value left by the GPIO loop.  Mirrors the C
control flow exactly: invalid bindings are skipped; on `val == 1` an
already-running binding or a failed fork executes `break` (the remaining
bindings of this association are left untouched); a successful fork
records `pid` and `running`, and a oneshot binding is waited for
synchronously and set back to not running; on `val != 1` a running
binding is terminated and waited for.  Returns the updated CMD table,
the events, and the new fork cursor. -/
def cmdScan (sub : SUBinfo) (val : Int) (forks : Nat → Int) :
    List CMDinfo → Nat → Nat → List CMDinfo × List Event × Nat
  | [], _, fc => ([], [], fc)
  | c :: cs, idx, fc =>
    if c.valid = false then
      let rest := cmdScan sub val forks cs (idx + 1) fc
      (c :: rest.1, rest.2.1, rest.2.2)
    else if linkMatch sub.linkID c.cmdID then
      if val = 1 then
        if c.running then
          (c :: cs, [], fc)
        else
          let pid := forks fc
          if pid > 0 then
            if c.oneshot then
              let c2 := { c with pid := pid, running := false }
              let rest := cmdScan sub val forks cs (idx + 1) (fc + 1)
              (c2 :: rest.1,
               Event.spawn idx pid :: Event.waitChild idx pid :: rest.2.1,
               rest.2.2)
            else
              let c1 := { c with pid := pid, running := true }
              let rest := cmdScan sub val forks cs (idx + 1) (fc + 1)
              (c1 :: rest.1, Event.spawn idx pid :: rest.2.1, rest.2.2)
          else
            (c :: cs, [], fc + 1)
      else
        if c.running then
          let c1 := { c with running := false }
          let rest := cmdScan sub val forks cs (idx + 1) fc
          (c1 :: rest.1, Event.termChild idx c.pid :: rest.2.1, rest.2.2)
        else
          let rest := cmdScan sub val forks cs (idx + 1) fc
          (c :: rest.1, rest.2.1, rest.2.2)
    else
      let rest := cmdScan sub val forks cs (idx + 1) fc
      (c :: rest.1, rest.2.1, rest.2.2)

/-- The outer association loop of `process_message` (lines 1236-1310).
`val` is threaded through: an inverted association's GPIO loop mutates it
and the mutation is visible to the CMD loop and to every later
association, exactly as in the C code. -/
def subScan (topic : List Char) (gpios : List GPIOinfo) (forks : Nat → Int) :
    List SUBinfo → Int → List CMDinfo → Nat → Int × List CMDinfo × List Event × Nat
  | [], val, cmds, fc => (val, cmds, [], fc)
  | sub :: subs, val, cmds, fc =>
    if topicMatch topic sub.topicStr then
      let g := gpioScan sub gpios 0 val
      let c := cmdScan sub g.1 forks cmds 0 fc
      let rest := subScan topic gpios forks subs g.1 c.1 c.2.2
      (rest.1, rest.2.1, g.2 ++ c.2.1 ++ rest.2.2.1, rest.2.2.2)
    else
      subScan topic gpios forks subs val cmds fc

/-- `process_message` (lines 1220-1311): decode the payload; on an
unhandled payload log and return (`none`); otherwise run the association
loop, returning the updated CMD table, the event trace, and the fork
cursor. -/
def process_message (topic payload : List Char) (subs : List SUBinfo)
    (gpios : List GPIOinfo) (cmds : List CMDinfo) (forks : Nat → Int)
    (fc : Nat) : Option (List CMDinfo × List Event × Nat) :=
  let val := decodePayload payload
  if val = -1 then none
  else
    let r := subScan topic gpios forks subs val cmds fc
    some (r.2.1, r.2.2.1, r.2.2.2)

/-- The value of `sleepSec` in `init_mosquitto` (lines 1150-1157) when the
`n`-th connect attempt (0-based) fails: the wait before attempt `n+1`.
`sleepSec` starts at 1 and, after each sleep, doubles while below 60. -/
def sleepSeq : Nat → Nat
  | 0 => 1
  | n + 1 => if sleepSeq n < 60 then 2 * sleepSeq n else sleepSeq n

/-- The connect-retry loop of `init_mosquitto`, evaluated against an
oracle `conn` giving each attempt's outcome, with explicit fuel (the C
loop is `while (1)`; the fuel only truncates the observation window).
`true` means the loop exited with a successful connection within `fuel`
attempts starting at attempt `start`. -/
def connectRetry (conn : Nat → Bool) : Nat → Nat → Bool
  | 0, _ => false
  | fuel + 1, start => if conn start then true else connectRetry conn fuel (start + 1)

/-- Number of `spawn` events in a trace. -/
def spawnCount : List Event → Nat
  | [] => 0
  | Event.spawn _ _ :: es => spawnCount es + 1
  | _ :: es => spawnCount es

/-- The values written by the `setLine` events of a trace, in order. -/
def lineValues : List Event → List Int
  | [] => []
  | Event.setLine _ v :: es => v :: lineValues es
  | _ :: es => lineValues es

/-- Number of GPIO bindings whose ID matches an association's linkID. -/
def gpioMatchCount (sub : SUBinfo) (gpios : List GPIOinfo) : Nat :=
  (gpios.filter (fun g => linkMatch sub.linkID g.gpioID)).length

/-- `altVals v n`: the alternating value sequence `1-v, v, 1-v, ...` of
length `n`, as written by the GPIO loop of an inverted association. -/
def altVals : Int → Nat → List Int
  | _, 0 => []
  | v, n + 1 => (1 - v) :: altVals (1 - v) n

/-! ## Characterization of the strncmp-based matching -/

theorem onChars_eq : onChars = 'O' :: 'N' :: [] := by decide

theorem offChars_eq : offChars = 'O' :: 'F' :: 'F' :: [] := by decide

/-- `strncmp a b (length a) = 0` holds exactly when `a` is a prefix of `b`. -/
theorem strncmp_fst_len_eq_zero (a : List Char) :
    ∀ b : List Char, strncmp a b a.length = 0 ↔ a <+: b := by
  induction a with
  | nil =>
    intro b
    constructor
    · intro _; exact ⟨b, rfl⟩
    · intro _; simp [strncmp]
  | cons x xs ih =>
    intro b
    cases b with
    | nil =>
      simp only [List.length_cons, strncmp]
      constructor
      · intro h; omega
      · rintro ⟨t, ht⟩; simp at ht
    | cons y ys =>
      simp only [List.length_cons, strncmp]
      rw [List.cons_prefix_cons]
      by_cases hxy : x = y
      · rw [if_pos hxy]
        simp [hxy, ih ys]
      · rw [if_neg hxy]
        constructor
        · intro h; split_ifs at h <;> omega
        · rintro ⟨h, -⟩; exact absurd h hxy

/-- `strncmp a b (length b) = 0` holds exactly when `b` is a prefix of `a`. -/
theorem strncmp_snd_len_eq_zero (b : List Char) :
    ∀ a : List Char, strncmp a b b.length = 0 ↔ b <+: a := by
  induction b with
  | nil =>
    intro a
    constructor
    · intro _; exact ⟨a, rfl⟩
    · intro _; simp [strncmp]
  | cons y ys ih =>
    intro a
    cases a with
    | nil =>
      simp only [List.length_cons, strncmp]
      constructor
      · intro h; omega
      · rintro ⟨t, ht⟩; simp at ht
    | cons x xs =>
      simp only [List.length_cons, strncmp]
      rw [List.cons_prefix_cons]
      by_cases hxy : x = y
      · rw [if_pos hxy]
        simp [hxy, ih xs]
      · rw [if_neg hxy]
        constructor
        · intro h; split_ifs at h <;> omega
        · rintro ⟨h, -⟩; exact absurd h.symm hxy

/-- The topic test of `process_message` accepts exactly the delivered
topics of which the association's pattern is a prefix. -/
theorem topicMatch_iff (t p : List Char) : topicMatch t p = true ↔ p <+: t := by
  unfold topicMatch
  rw [decide_eq_true_iff]
  exact strncmp_snd_len_eq_zero p t

/-- The link test of `process_message` accepts exactly the association
linkIDs of which the binding's identifier is a prefix. -/
theorem linkMatch_iff (a b : List Char) : linkMatch a b = true ↔ b <+: a := by
  unfold linkMatch
  rw [decide_eq_true_iff]
  exact strncmp_snd_len_eq_zero b a

theorem decodePayload_unfold (p : List Char) :
    decodePayload p =
      if strncmp p offChars p.length = 0 then 0
      else if strncmp p onChars p.length = 0 then 1 else -1 := rfl

/-- The payload check sets `val = 0` exactly for the payloads that are a
prefix of "OFF": "", "O", "OF" and "OFF" itself. -/
theorem decodePayload_zero_iff (p : List Char) :
    decodePayload p = 0 ↔ p <+: offChars := by
  rw [decodePayload_unfold, ← strncmp_fst_len_eq_zero]
  by_cases hOFF : strncmp p offChars p.length = 0
  · rw [if_pos hOFF]; simp [hOFF]
  · rw [if_neg hOFF]
    by_cases hON : strncmp p onChars p.length = 0
    · rw [if_pos hON]; simp [hOFF]
    · rw [if_neg hON]; simp [hOFF]

/-- A payload that is a prefix of "ON" but not of "OFF" is "ON" itself. -/
theorem eq_on_of_prefixes {p : List Char} (h1 : p <+: onChars)
    (h2 : ¬ p <+: offChars) : p = onChars := by
  obtain ⟨t, ht⟩ := h1
  rw [onChars_eq] at ht ⊢
  cases p with
  | nil => exact absurd ⟨offChars, rfl⟩ h2
  | cons a q =>
    simp only [List.cons_append, List.cons.injEq] at ht
    obtain ⟨rfl, ht⟩ := ht
    cases q with
    | nil =>
      exfalso
      apply h2
      exact ⟨'F' :: 'F' :: [], by simp [offChars_eq]⟩
    | cons b r =>
      simp only [List.cons_append, List.cons.injEq] at ht
      obtain ⟨rfl, ht⟩ := ht
      have hr : r = [] := (List.append_eq_nil.mp ht).1
      rw [hr]

/-- The payload check sets `val = 1` exactly for the payload "ON". -/
theorem decodePayload_one_iff (p : List Char) :
    decodePayload p = 1 ↔ p = onChars := by
  rw [decodePayload_unfold]
  constructor
  · intro h
    split_ifs at h with hOFF hON
    · exact absurd h (by decide)
    · exact eq_on_of_prefixes ((strncmp_fst_len_eq_zero p onChars).mp hON)
        (fun hp => hOFF ((strncmp_fst_len_eq_zero p offChars).mpr hp))
  · rintro rfl
    decide

/-- The payload check leaves `val = -1` (unhandled) exactly when the
payload is a prefix of neither "ON" nor "OFF". -/
theorem decodePayload_neg_iff (p : List Char) :
    decodePayload p = -1 ↔ ¬ p <+: onChars ∧ ¬ p <+: offChars := by
  rw [decodePayload_unfold]
  by_cases hOFF : strncmp p offChars p.length = 0
  · rw [if_pos hOFF]
    simp [(strncmp_fst_len_eq_zero p offChars).mp hOFF]
  · rw [if_neg hOFF]
    by_cases hON : strncmp p onChars p.length = 0
    · rw [if_pos hON]
      simp [(strncmp_fst_len_eq_zero p onChars).mp hON]
    · rw [if_neg hON]
      constructor
      · intro _
        exact ⟨fun h => hON ((strncmp_fst_len_eq_zero p onChars).mpr h),
               fun h => hOFF ((strncmp_fst_len_eq_zero p offChars).mpr h)⟩
      · intro _; rfl

/-! ## Behavioral lemmas about the dispatch loops -/

/-- Without inversion the GPIO loop never changes the shared `val`. -/
theorem gpioScan_val_of_not_inv (sub : SUBinfo) (h : sub.inv = false) :
    ∀ (gs : List GPIOinfo) (idx : Nat) (val : Int),
      (gpioScan sub gs idx val).1 = val := by
  intro gs
  induction gs with
  | nil => intro idx val; rfl
  | cons g gs ih =>
    intro idx val
    by_cases hm : linkMatch sub.linkID g.gpioID
    · simp only [gpioScan, if_pos hm, h, if_neg Bool.false_ne_true]
      exact ih (idx + 1) val
    · simp only [gpioScan, if_neg hm]
      exact ih (idx + 1) val

/-- The GPIO loop emits only `setLine` events: it spawns nothing. -/
theorem gpioScan_spawnCount (sub : SUBinfo) :
    ∀ (gs : List GPIOinfo) (idx : Nat) (val : Int),
      spawnCount (gpioScan sub gs idx val).2 = 0 := by
  intro gs
  induction gs with
  | nil => intro idx val; rfl
  | cons g gs ih =>
    intro idx val
    by_cases hm : linkMatch sub.linkID g.gpioID
    · simp only [gpioScan, if_pos hm, spawnCount]
      exact ih (idx + 1) _
    · simp only [gpioScan, if_neg hm]
      exact ih (idx + 1) val

/-- The GPIO loop of an inverted association toggles the shared `val`
once per matching binding: the final value depends on the parity of the
number of matching GPIO bindings, and the written values alternate
starting from the inverted value. -/
theorem gpioScan_inv_parity (sub : SUBinfo) (h : sub.inv = true) :
    ∀ (gs : List GPIOinfo) (idx : Nat) (val : Int), val = 0 ∨ val = 1 →
      (gpioScan sub gs idx val).1
          = (if gpioMatchCount sub gs % 2 = 0 then val else 1 - val)
        ∧ lineValues (gpioScan sub gs idx val).2
          = altVals val (gpioMatchCount sub gs) := by
  intro gs
  induction gs with
  | nil =>
    intro idx val _
    simp [gpioScan, gpioMatchCount, lineValues, altVals]
  | cons g gs ih =>
    intro idx val hval
    by_cases hm : linkMatch sub.linkID g.gpioID
    · have hflip : invFlip val = 1 - val := by
        rcases hval with rfl | rfl <;> simp [invFlip]
      have hbranch : (if sub.inv = true then invFlip val else val) = 1 - val := by
        rw [if_pos h, hflip]
      have hv1 : (1 : Int) - val = 0 ∨ (1 : Int) - val = 1 := by
        rcases hval with rfl | rfl <;> simp
      have hcount : gpioMatchCount sub (g :: gs) = gpioMatchCount sub gs + 1 := by
        simp [gpioMatchCount, hm]
      obtain ⟨ih1, ih2⟩ := ih (idx + 1) (1 - val) hv1
      constructor
      · simp only [gpioScan, if_pos hm, hbranch, hcount]
        rw [ih1]
        by_cases he : gpioMatchCount sub gs % 2 = 0
        · rw [if_pos he, if_neg (by omega)]
        · rw [if_neg he, if_pos (by omega)]
          omega
      · simp only [gpioScan, if_pos hm, hbranch, hcount, lineValues]
        rw [ih2, altVals]
    · have hcount : gpioMatchCount sub (g :: gs) = gpioMatchCount sub gs := by
        simp [gpioMatchCount, hm]
      obtain ⟨ih1, ih2⟩ := ih (idx + 1) val hval
      constructor
      · simp only [gpioScan, if_neg hm, hcount]
        exact ih1
      · simp only [gpioScan, if_neg hm, hcount]
        exact ih2

/-- An already-running valid matching binding reached with `val = 1`
executes `break`: the whole remaining CMD table is returned untouched,
no event is emitted and no fork result is consumed. -/
theorem cmdScan_break_of_running (sub : SUBinfo) (forks : Nat → Int)
    (c : CMDinfo) (cs : List CMDinfo) (idx fc : Nat)
    (hv : c.valid = true) (hm : linkMatch sub.linkID c.cmdID = true)
    (hr : c.running = true) :
    cmdScan sub 1 forks (c :: cs) idx fc = (c :: cs, [], fc) := by
  simp [cmdScan, hv, hm, hr]

/-- With `val = 0` (the OFF branch) the CMD loop stops every valid
matching running binding, touches no other binding, and consumes no
fork result. -/
theorem cmdScan_off (sub : SUBinfo) (forks : Nat → Int) :
    ∀ (cs : List CMDinfo) (idx fc : Nat),
      (cmdScan sub 0 forks cs idx fc).1
        = cs.map (fun c =>
            if c.valid = true ∧ linkMatch sub.linkID c.cmdID = true ∧ c.running = true
            then { c with running := false } else c)
      ∧ (cmdScan sub 0 forks cs idx fc).2.2 = fc := by
  intro cs
  induction cs with
  | nil => intro idx fc; exact ⟨rfl, rfl⟩
  | cons c cs ih =>
    intro idx fc
    obtain ⟨ih1, ih2⟩ := ih (idx + 1) fc
    by_cases hv : c.valid = false
    · simp [cmdScan, hv, ih1, ih2]
    · have hvt : c.valid = true := by revert hv; cases c.valid <;> simp
      by_cases hm : linkMatch sub.linkID c.cmdID = true
      · by_cases hr : c.running = true
        · simp [cmdScan, hv, hvt, hm, hr, ih1, ih2]
        · simp [cmdScan, hv, hvt, hm, hr, ih1, ih2]
      · simp [cmdScan, hv, hvt, hm, ih1, ih2]

/-- The configuration-derived fields of a process binding: everything
except the mutable process-state fields `pid` and `running`. -/
def cfgEq (a b : CMDinfo) : Prop :=
  a.cmdID = b.cmdID ∧ a.cmdStr = b.cmdStr ∧ a.oneshot = b.oneshot ∧ a.valid = b.valid

theorem cfgEq_refl (a : CMDinfo) : cfgEq a a := ⟨rfl, rfl, rfl, rfl⟩

theorem cfgEq_trans {a b c : CMDinfo} (h1 : cfgEq a b) (h2 : cfgEq b c) :
    cfgEq a c :=
  ⟨h1.1.trans h2.1, h1.2.1.trans h2.2.1, h1.2.2.1.trans h2.2.2.1,
   h1.2.2.2.trans h2.2.2.2⟩

theorem forall₂_cfgEq_refl : ∀ l : List CMDinfo, List.Forall₂ cfgEq l l
  | [] => List.Forall₂.nil
  | a :: l => List.Forall₂.cons (cfgEq_refl a) (forall₂_cfgEq_refl l)

theorem forall₂_cfgEq_trans : ∀ {l1 l2 l3 : List CMDinfo},
    List.Forall₂ cfgEq l1 l2 → List.Forall₂ cfgEq l2 l3 →
    List.Forall₂ cfgEq l1 l3 := by
  intro l1 l2 l3 h1 h2
  induction h1 generalizing l3 with
  | nil => cases h2; exact List.Forall₂.nil
  | cons hab h ih =>
    cases h2 with
    | cons hbc h' => exact List.Forall₂.cons (cfgEq_trans hab hbc) (ih h')

/-- The CMD loop changes at most the `pid` and `running` fields of each
binding, pointwise. -/
theorem cmdScan_cfg (sub : SUBinfo) (val : Int) (forks : Nat → Int) :
    ∀ (cs : List CMDinfo) (idx fc : Nat),
      List.Forall₂ cfgEq cs (cmdScan sub val forks cs idx fc).1 := by
  intro cs
  induction cs with
  | nil => intro idx fc; exact List.Forall₂.nil
  | cons c cs ih =>
    intro idx fc
    simp only [cmdScan]
    split_ifs <;>
      first
      | exact forall₂_cfgEq_refl _
      | exact List.Forall₂.cons (cfgEq_refl c) (ih (idx + 1) fc)
      | exact List.Forall₂.cons ⟨rfl, rfl, rfl, rfl⟩ (ih (idx + 1) (fc + 1))
      | exact List.Forall₂.cons ⟨rfl, rfl, rfl, rfl⟩ (ih (idx + 1) fc)

/-- The association loop changes at most the `pid` and `running` fields
of each process binding, pointwise. -/
theorem subScan_cfg (topic : List Char) (gpios : List GPIOinfo)
    (forks : Nat → Int) :
    ∀ (subs : List SUBinfo) (val : Int) (cmds : List CMDinfo) (fc : Nat),
      List.Forall₂ cfgEq cmds (subScan topic gpios forks subs val cmds fc).2.1 := by
  intro subs
  induction subs with
  | nil => intro val cmds fc; exact forall₂_cfgEq_refl cmds
  | cons sub subs ih =>
    intro val cmds fc
    by_cases ht : topicMatch topic sub.topicStr = true
    · simp only [subScan, if_pos ht]
      exact forall₂_cfgEq_trans (cmdScan_cfg sub _ forks cmds 0 fc) (ih _ _ _)
    · simp only [subScan, if_neg ht]
      exact ih val cmds fc

/-- One matching association: the CMD loop runs on the value left by the
GPIO loop, and the events are the GPIO writes followed by the CMD events. -/
theorem subScan_single (topic : List Char) (gpios : List GPIOinfo)
    (forks : Nat → Int) (sub : SUBinfo) (val : Int) (cmds : List CMDinfo)
    (fc : Nat) (ht : topicMatch topic sub.topicStr = true) :
    subScan topic gpios forks [sub] val cmds fc
      = ((gpioScan sub gpios 0 val).1,
         (cmdScan sub (gpioScan sub gpios 0 val).1 forks cmds 0 fc).1,
         (gpioScan sub gpios 0 val).2
           ++ (cmdScan sub (gpioScan sub gpios 0 val).1 forks cmds 0 fc).2.1,
         (cmdScan sub (gpioScan sub gpios 0 val).1 forks cmds 0 fc).2.2) := by
  simp [subScan, ht]

theorem spawnCount_append (a b : List Event) :
    spawnCount (a ++ b) = spawnCount a + spawnCount b := by
  induction a with
  | nil => simp [spawnCount]
  | cons e es ih =>
    cases e <;> simp [spawnCount, ih] <;> omega

/-- An unhandled payload makes `process_message` return without any
action, exactly when the decoded value is `-1`. -/
theorem process_message_none_iff (t p : List Char) (subs : List SUBinfo)
    (gpios : List GPIOinfo) (cmds : List CMDinfo) (forks : Nat → Int)
    (fc : Nat) :
    process_message t p subs gpios cmds forks fc = none ↔
      decodePayload p = -1 := by
  by_cases h : decodePayload p = -1 <;> simp [process_message, h]

/-- A handled payload runs the association loop on the decoded value. -/
theorem process_message_some (t p : List Char) (subs : List SUBinfo)
    (gpios : List GPIOinfo) (cmds : List CMDinfo) (forks : Nat → Int)
    (fc : Nat) (h : decodePayload p ≠ -1) :
    process_message t p subs gpios cmds forks fc
      = some ((subScan t gpios forks subs (decodePayload p) cmds fc).2.1,
              (subScan t gpios forks subs (decodePayload p) cmds fc).2.2.1,
              (subScan t gpios forks subs (decodePayload p) cmds fc).2.2.2) := by
  simp [process_message, h]

/-- Closed form of the backoff sequence: `sleepSec` after the `n`-th
failure is `min (2^n) 64`; in particular it reaches 64, not 60. -/
theorem sleepSeq_closed (n : Nat) : sleepSeq n = min (2 ^ n) 64 := by
  induction n with
  | zero => decide
  | succ n ih =>
    rw [sleepSeq, ih]
    by_cases h6 : n < 6
    · have hle : 2 ^ n ≤ 32 := by
        calc 2 ^ n ≤ 2 ^ 5 := Nat.pow_le_pow_right (by omega) (by omega)
          _ = 32 := by norm_num
      have hmin : min (2 ^ n) 64 = 2 ^ n := by omega
      rw [hmin, if_pos (by omega)]
      have hp : (2 : Nat) ^ (n + 1) = 2 * 2 ^ n := by ring
      omega
    · have hge : 64 ≤ 2 ^ n := by
        calc (64 : Nat) = 2 ^ 6 := by norm_num
          _ ≤ 2 ^ n := Nat.pow_le_pow_right (by omega) (by omega)
      have hmin : min (2 ^ n) 64 = 64 := by omega
      rw [hmin, if_neg (by omega)]
      have hge2 : 64 ≤ 2 ^ (n + 1) :=
        le_trans hge (Nat.pow_le_pow_right (by omega) (by omega))
      omega

/-- The retry loop exits within `fuel` attempts from `start` exactly when
some attempt in that window succeeds. -/
theorem connectRetry_true_iff (conn : Nat → Bool) :
    ∀ (fuel start : Nat),
      connectRetry conn fuel start = true ↔
        ∃ n, start ≤ n ∧ n < start + fuel ∧ conn n = true := by
  intro fuel
  induction fuel with
  | zero =>
    intro start
    simp only [connectRetry]
    constructor
    · intro h; exact absurd h (by decide)
    · rintro ⟨n, h1, h2, -⟩; omega
  | succ fuel ih =>
    intro start
    simp only [connectRetry]
    by_cases h : conn start = true
    · simp only [h, if_pos rfl]
      constructor
      · intro _; exact ⟨start, le_refl start, by omega, h⟩
      · intro _; rfl
    · rw [if_neg (by simp [h])]
      rw [ih (start + 1)]
      constructor
      · rintro ⟨n, h1, h2, h3⟩; exact ⟨n, by omega, by omega, h3⟩
      · rintro ⟨n, h1, h2, h3⟩
        refine ⟨n, ?_, by omega, h3⟩
        rcases Nat.eq_or_lt_of_le h1 with rfl | hlt
        · exact absurd h3 h
        · omega

/-! ## Concrete fixtures for counterexamples and witnesses -/

def tChars : List Char := ("t").toList
def lChars : List Char := ("L").toList
def liChars : List Char := ("li").toList
def lightChars : List Char := ("light").toList
def abChars : List Char := ("a/b").toList
def abcChars : List Char := ("a/b/c").toList
def xabChars : List Char := ("x/a/b").toList
def oChars : List Char := ("O").toList
def chipChars : List Char := ("c").toList
def slashxChars : List Char := ("/x").toList

/-- `SUB t L 0` -/
def subT : SUBinfo := { topicStr := tChars, linkID := lChars, qos := 0, inv := false }

/-- `SUB t L 0 INV` -/
def subTinv : SUBinfo := { topicStr := tChars, linkID := lChars, qos := 0, inv := true }

/-- `SUB t li 0` -/
def subLi : SUBinfo := { topicStr := tChars, linkID := liChars, qos := 0, inv := false }

/-- `GPIO L c 4` -/
def gpioL : GPIOinfo := { gpioID := lChars, chipStr := chipChars, pin := 4 }

/-- `GPIO light c 4` -/
def gpioLight : GPIOinfo := { gpioID := lightChars, chipStr := chipChars, pin := 4 }

/-- A valid non-oneshot binding currently running as pid 5. -/
def cmdRun : CMDinfo :=
  { cmdID := lChars, cmdStr := slashxChars, oneshot := false, valid := true,
    pid := 5, running := true }

/-- A valid non-oneshot binding currently stopped. -/
def cmdStop : CMDinfo :=
  { cmdID := lChars, cmdStr := slashxChars, oneshot := false, valid := true,
    pid := 0, running := false }

/-- A valid oneshot binding currently stopped. -/
def cmdOneshot : CMDinfo :=
  { cmdID := lChars, cmdStr := slashxChars, oneshot := true, valid := true,
    pid := 0, running := false }

/-- A fork oracle that always succeeds with pid 9. -/
def forks9 : Nat → Int := fun _ => 9

/-! ## The claims -/

/-- C1 (corrected): for an inverted association the effective value is
not computed once per association; the shared `val` is toggled in place
at each matching GPIO binding, so the written values alternate starting
with the inverted value, the value left after the GPIO loop is inverted
exactly when the number of matching GPIO bindings is odd, and the
process (CMD) branch observes that post-loop value — in particular with
no matching GPIO binding it observes the un-inverted decoded value. -/
theorem C1_amended_theorem (sub : SUBinfo) (gs : List GPIOinfo) (idx : Nat)
    (val : Int) (hinv : sub.inv = true) (hval : val = 0 ∨ val = 1) :
    (gpioScan sub gs idx val).1
        = (if gpioMatchCount sub gs % 2 = 0 then val else 1 - val)
      ∧ lineValues (gpioScan sub gs idx val).2
          = altVals val (gpioMatchCount sub gs)
      ∧ ∀ (topic : List Char) (cmds : List CMDinfo) (forks : Nat → Int)
          (fc : Nat), topicMatch topic sub.topicStr = true →
          (subScan topic gs forks [sub] val cmds fc).2.1
            = (cmdScan sub
                (if gpioMatchCount sub gs % 2 = 0 then val else 1 - val)
                forks cmds 0 fc).1 := by
  obtain ⟨h1, h2⟩ := gpioScan_inv_parity sub hinv gs idx val hval
  refine ⟨h1, h2, ?_⟩
  intro topic cmds forks fc ht
  have h0 := (gpioScan_inv_parity sub hinv gs 0 val hval).1
  rw [subScan_single topic gs forks sub val cmds fc ht]
  exact congrArg (fun v => (cmdScan sub v forks cmds 0 fc).1) h0

/-- Witness for C1: a concrete inverted association with two matching
GPIO bindings and decoded value 1: the final value is back to 1 and the
written values are 0 then 1. -/
theorem C1_witness :
    (gpioScan subTinv [gpioL, gpioL] 0 1).1 = 1
      ∧ lineValues (gpioScan subTinv [gpioL, gpioL] 0 1).2 = [0, 1] := by
  obtain ⟨h1, h2, -⟩ := C1_amended_theorem subTinv [gpioL, gpioL] 0 1 rfl (Or.inr rfl)
  constructor
  · rw [h1]; decide
  · rw [h2]; decide

/-- C1 counterexample: with invert set and two matching GPIO bindings,
payload "ON" (decoded true; the claim says every linked line is set to
the inverted value 0) sets line 0 to 0 but line 1 back to 1; the claimed
write of 0 to line 1 never happens. -/
theorem C1_counterexample :
    process_message tChars onChars [subTinv] [gpioL, gpioL] [] forks9 0
        = some ([], [Event.setLine 0 0, Event.setLine 1 1], 0)
      ∧ Event.setLine 1 0 ∉ [Event.setLine 0 0, Event.setLine 1 1] := by
  decide

/-- C2 (corrected): the payload decode is a prefix test bounded by the
payload's own length: it yields true exactly for "ON", false exactly for
the prefixes of "OFF" ("", "O", "OF", "OFF"), and any payload that is a
prefix of neither string is unhandled — the dispatch returns with no
GPIO write and no process action. -/
theorem C2_amended_theorem :
    (∀ p : List Char, decodePayload p = 1 ↔ p = onChars)
      ∧ (∀ p : List Char, decodePayload p = 0 ↔ p <+: offChars)
      ∧ (∀ p : List Char, ¬ p <+: onChars → ¬ p <+: offChars →
          ∀ (t : List Char) (subs : List SUBinfo) (gpios : List GPIOinfo)
            (cmds : List CMDinfo) (forks : Nat → Int) (fc : Nat),
            process_message t p subs gpios cmds forks fc = none) := by
  refine ⟨decodePayload_one_iff, decodePayload_zero_iff, ?_⟩
  intro p h1 h2 t subs gpios cmds forks fc
  exact (process_message_none_iff t p subs gpios cmds forks fc).mpr
    ((decodePayload_neg_iff p).mpr ⟨h1, h2⟩)

/-- C2 counterexample: the payload "O" — a proper prefix the claim says
is unhandled with no side effects — decodes to OFF and drives a matching
GPIO line to 0. -/
theorem C2_counterexample :
    decodePayload oChars = 0
      ∧ process_message tChars oChars [subT] [gpioL] [] forks9 0
          = some ([], [Event.setLine 0 0], 0) := by
  decide

/-- C3 (corrected): the linkID comparison is bounded by the *binding's*
identifier length, not by the shorter of the two: an association is
linked to a binding exactly when the binding's linkID is a prefix of the
association's linkID; in particular association "li" does NOT match
binding "light", while association "light" does match binding "li". -/
theorem C3_amended_theorem :
    (∀ a b : List Char, linkMatch a b = true ↔ b <+: a)
      ∧ linkMatch liChars lightChars = false
      ∧ linkMatch lightChars liChars = true :=
  ⟨linkMatch_iff, by decide, by decide⟩

/-- C3 counterexample: association linkID "li" and binding linkID
"light" agree on their first min(2,5) = 2 characters, so the claim says
they are linked and an ON dispatch writes the line; the code performs no
write at all. -/
theorem C3_counterexample :
    liChars.take (min liChars.length lightChars.length)
        = lightChars.take (min liChars.length lightChars.length)
      ∧ process_message tChars onChars [subLi] [gpioLight] [] forks9 0
          = some ([], [], 0) := by
  decide

/-- C4 (corrected): on OFF every valid matching binding is stopped (and
no fork result is consumed), but on ON the CMD loop stops at the first
valid matching binding that is already running (the C `break`): the
whole remaining CMD table of that association is left untouched and the
remaining matching bindings are not driven. -/
theorem C4_amended_theorem :
    (∀ (sub : SUBinfo) (forks : Nat → Int) (c : CMDinfo) (cs : List CMDinfo)
        (idx fc : Nat), c.valid = true → linkMatch sub.linkID c.cmdID = true →
        c.running = true →
        cmdScan sub 1 forks (c :: cs) idx fc = (c :: cs, [], fc))
      ∧ (∀ (sub : SUBinfo) (forks : Nat → Int) (cs : List CMDinfo)
          (idx fc : Nat),
          (cmdScan sub 0 forks cs idx fc).1
            = cs.map (fun c =>
                if c.valid = true ∧ linkMatch sub.linkID c.cmdID = true ∧
                    c.running = true
                then { c with running := false } else c)
          ∧ (cmdScan sub 0 forks cs idx fc).2.2 = fc) :=
  ⟨fun sub forks c cs idx fc hv hm hr =>
      cmdScan_break_of_running sub forks c cs idx fc hv hm hr,
   fun sub forks cs idx fc => cmdScan_off sub forks cs idx fc⟩

/-- C4 counterexample: two valid matching process bindings, the first
already running; an ON dispatch spawns nothing at all — the second,
stopped binding is not driven, contrary to the claim. -/
theorem C4_counterexample :
    process_message tChars onChars [subT] [] [cmdRun, cmdStop] forks9 0
        = some ([cmdRun, cmdStop], [], 0)
      ∧ Event.spawn 1 9 ∉ ([] : List Event) := by
  decide

/-- C5 (corrected): the reconnect wait starts at 1 time-unit and doubles
after each failure while below 60, but it is capped at 64, not 60: the
wait after the n-th failure is min(2^n, 64), reaching 64 from the 7th
attempt on; the loop retries until some attempt succeeds, and it reports
success only when one does. -/
theorem C5_amended_theorem :
    sleepSeq 0 = 1
      ∧ (∀ n, sleepSeq n < 60 → sleepSeq (n + 1) = 2 * sleepSeq n)
      ∧ (∀ n, 60 ≤ sleepSeq n → sleepSeq (n + 1) = sleepSeq n)
      ∧ (∀ n, sleepSeq n = min (2 ^ n) 64)
      ∧ (∀ n, sleepSeq n ≤ 64)
      ∧ (∀ (conn : Nat → Bool) (fuel start : Nat),
          connectRetry conn fuel start = true → ∃ n, conn n = true)
      ∧ (∀ (conn : Nat → Bool) (k fuel : Nat), conn k = true → k < fuel →
          connectRetry conn fuel 0 = true) := by
  refine ⟨rfl, ?_, ?_, sleepSeq_closed, ?_, ?_, ?_⟩
  · intro n h
    simp only [sleepSeq]
    rw [if_pos h]
  · intro n h
    simp only [sleepSeq]
    rw [if_neg (by omega)]
  · intro n
    rw [sleepSeq_closed]
    omega
  · intro conn fuel start h
    obtain ⟨n, -, -, hn⟩ := (connectRetry_true_iff conn fuel start).mp h
    exact ⟨n, hn⟩
  · intro conn k fuel hk hlt
    exact (connectRetry_true_iff conn fuel 0).mpr ⟨k, by omega, by omega, hk⟩

/-- C5 counterexample: after the 6th doubling the wait is 64 time-units,
exceeding the claimed cap of 60. -/
theorem C5_counterexample : sleepSeq 6 = 64 ∧ ¬ sleepSeq 6 ≤ 60 := by decide

/-- C6 (corrected): a running valid matching binding reached with the
shared value still 1 is a strict no-op (the ON branch breaks, changing
no state and spawning nothing), and for an invert-free association two
consecutive ON dispatches spawn exactly once; but the claim's universal
form fails: an inverted association with a matching GPIO binding flips
the shared value to 0 before the CMD loop, and the ON dispatch then
terminates the running binding instead of being a no-op. -/
theorem C6_amended_theorem :
    (∀ (sub : SUBinfo) (forks : Nat → Int) (c : CMDinfo) (cs : List CMDinfo)
        (idx fc : Nat), c.valid = true → linkMatch sub.linkID c.cmdID = true →
        c.running = true →
        cmdScan sub 1 forks (c :: cs) idx fc = (c :: cs, [], fc))
      ∧ (∀ (sub : SUBinfo) (topic : List Char) (gpios : List GPIOinfo)
          (c : CMDinfo) (forks : Nat → Int) (fc : Nat),
          sub.inv = false → topicMatch topic sub.topicStr = true →
          c.valid = true → c.oneshot = false → c.running = false →
          linkMatch sub.linkID c.cmdID = true → 0 < forks fc →
          ∃ evs1 evs2,
            process_message topic onChars [sub] gpios [c] forks fc
              = some ([{ c with pid := forks fc, running := true }], evs1, fc + 1)
            ∧ spawnCount evs1 = 1
            ∧ process_message topic onChars [sub] gpios
                [{ c with pid := forks fc, running := true }] forks (fc + 1)
              = some ([{ c with pid := forks fc, running := true }], evs2, fc + 1)
            ∧ spawnCount evs2 = 0) := by
  refine ⟨fun sub forks c cs idx fc hv hm hr =>
      cmdScan_break_of_running sub forks c cs idx fc hv hm hr, ?_⟩
  intro sub topic gpios c forks fc hinv ht hv hos hr hm hpid
  have hdec : decodePayload onChars = 1 := by decide
  have hne : decodePayload onChars ≠ -1 := by decide
  have hg := gpioScan_val_of_not_inv sub hinv gpios 0 1
  have hcmd1 : cmdScan sub 1 forks [c] 0 fc
      = ([{ c with pid := forks fc, running := true }],
         [Event.spawn 0 (forks fc)], fc + 1) := by
    simp [cmdScan, hv, hm, hr, hos, hpid]
  have hcmd2 : cmdScan sub 1 forks
      [{ c with pid := forks fc, running := true }] 0 (fc + 1)
      = ([{ c with pid := forks fc, running := true }], [], fc + 1) :=
    cmdScan_break_of_running sub forks _ [] 0 (fc + 1) hv hm rfl
  refine ⟨(gpioScan sub gpios 0 1).2 ++ [Event.spawn 0 (forks fc)],
          (gpioScan sub gpios 0 1).2 ++ [], ?_, ?_, ?_, ?_⟩
  · rw [process_message_some topic onChars [sub] gpios [c] forks fc hne, hdec,
        subScan_single topic gpios forks sub 1 [c] fc ht, hg, hcmd1]
  · rw [spawnCount_append, gpioScan_spawnCount sub gpios 0 1]
    rfl
  · rw [process_message_some topic onChars [sub] gpios
          [{ c with pid := forks fc, running := true }] forks (fc + 1) hne,
        hdec, subScan_single topic gpios forks sub 1
          [{ c with pid := forks fc, running := true }] (fc + 1) ht, hg, hcmd2]
  · rw [spawnCount_append, gpioScan_spawnCount sub gpios 0 1]
    rfl

/-- Witness for C6: the second conjunct instantiated at a concrete
invert-free association and stopped binding, fork succeeding as pid 9. -/
theorem C6_witness :
    ∃ evs1 evs2,
      process_message tChars onChars [subT] [] [cmdStop] forks9 0
          = some ([{ cmdStop with pid := forks9 0, running := true }], evs1, 1)
        ∧ spawnCount evs1 = 1
        ∧ process_message tChars onChars [subT] []
            [{ cmdStop with pid := forks9 0, running := true }] forks9 1
          = some ([{ cmdStop with pid := forks9 0, running := true }], evs2, 1)
        ∧ spawnCount evs2 = 0 :=
  C6_amended_theorem.2 subT tChars [] cmdStop forks9 0 rfl (by decide) rfl rfl rfl
    (by decide) (by decide)

/-- C6 counterexample: a running binding linked through an inverted
association with one matching GPIO binding: a single "ON" dispatch flips
the shared value to 0 and terminates the running process — its state is
not unchanged, so the dispatch is not a no-op for that binding. -/
theorem C6_counterexample :
    process_message tChars onChars [subTinv] [gpioL] [cmdRun] forks9 0
        = some ([{ cmdRun with running := false }],
                [Event.setLine 0 0, Event.termChild 0 5], 0)
      ∧ cmdRun.running = true
      ∧ ({ cmdRun with running := false } : CMDinfo).running = false := by
  decide

/-- C7 (confirmed): a stopped, valid oneshot binding that an ON dispatch
spawns is waited for synchronously — the spawn event is immediately
followed by the wait event inside the same dispatch trace — and the
binding is back to Stopped (`running = false`) when the dispatch
returns, with no OFF message involved. -/
theorem C7_theorem (sub : SUBinfo) (topic : List Char)
    (gpios : List GPIOinfo) (c : CMDinfo) (forks : Nat → Int) (fc : Nat)
    (hinv : sub.inv = false) (ht : topicMatch topic sub.topicStr = true)
    (hv : c.valid = true) (hos : c.oneshot = true) (hr : c.running = false)
    (hm : linkMatch sub.linkID c.cmdID = true) (hpid : 0 < forks fc) :
    process_message topic onChars [sub] gpios [c] forks fc
      = some ([{ c with pid := forks fc, running := false }],
              (gpioScan sub gpios 0 1).2
                ++ [Event.spawn 0 (forks fc), Event.waitChild 0 (forks fc)],
              fc + 1) := by
  have hdec : decodePayload onChars = 1 := by decide
  have hne : decodePayload onChars ≠ -1 := by decide
  have hg := gpioScan_val_of_not_inv sub hinv gpios 0 1
  have hcmd : cmdScan sub 1 forks [c] 0 fc
      = ([{ c with pid := forks fc, running := false }],
         [Event.spawn 0 (forks fc), Event.waitChild 0 (forks fc)], fc + 1) := by
    simp [cmdScan, hv, hm, hr, hos, hpid]
  rw [process_message_some topic onChars [sub] gpios [c] forks fc hne, hdec,
      subScan_single topic gpios forks sub 1 [c] fc ht, hg, hcmd]

/-- Witness for C7: a concrete oneshot binding, fork succeeding as
pid 9: after the dispatch the binding is stopped and the trace is the
spawn immediately followed by the synchronous wait. -/
theorem C7_witness :
    process_message tChars onChars [subT] [] [cmdOneshot] forks9 0
      = some ([{ cmdOneshot with pid := 9, running := false }],
              [Event.spawn 0 9, Event.waitChild 0 9], 1) := by
  have h := C7_theorem subT tChars [] cmdOneshot forks9 0 rfl (by decide) rfl rfl
    rfl (by decide) (by decide)
  simpa using h

/-- C8 (confirmed): an association matches exactly when its pattern is a
prefix of the delivered topic: "a/b" matches "a/b/c", and it is not
substring-anywhere matching: "a/b" does not match "x/a/b". -/
theorem C8_theorem :
    (∀ t p : List Char, topicMatch t p = true ↔ p <+: t)
      ∧ topicMatch abcChars abChars = true
      ∧ topicMatch xabChars abChars = false :=
  ⟨topicMatch_iff, by decide, by decide⟩

/-- C9 (confirmed): a dispatch changes at most the `pid` and `running`
fields of the process bindings: every configuration-derived field
(`cmdID`, `cmdStr`, `oneshot`, `valid`) of every binding is unchanged,
pointwise (so the table length is also unchanged); the GPIO-binding and
association tables are threaded read-only because `process_message`
contains no assignment to them. -/
theorem C9_theorem (topic payload : List Char) (subs : List SUBinfo)
    (gpios : List GPIOinfo) (cmds cmds1 : List CMDinfo) (evs : List Event)
    (forks : Nat → Int) (fc fc1 : Nat)
    (h : process_message topic payload subs gpios cmds forks fc
          = some (cmds1, evs, fc1)) :
    List.Forall₂ cfgEq cmds cmds1 := by
  by_cases hd : decodePayload payload = -1
  · rw [(process_message_none_iff topic payload subs gpios cmds forks fc).mpr hd] at h
    exact absurd h (by simp)
  · rw [process_message_some topic payload subs gpios cmds forks fc hd] at h
    simp only [Option.some.injEq, Prod.mk.injEq] at h
    obtain ⟨hcmds, -, -⟩ := h
    rw [← hcmds]
    exact subScan_cfg topic gpios forks subs (decodePayload payload) cmds fc

/-- Witness for C9: a concrete OFF dispatch that stops a running binding
changes only its `running` field; the configuration fields agree. -/
theorem C9_witness :
    List.Forall₂ cfgEq [cmdRun] [{ cmdRun with running := false }] :=
  C9_theorem tChars offChars [subT] [gpioL] [cmdRun]
    [{ cmdRun with running := false }] [Event.setLine 0 0, Event.termChild 0 5]
    forks9 0 0 (by decide)

/-- C10 (confirmed): the empty payload is not rejected: it decodes to
OFF (0), the dispatch result is defined (not the unhandled return), and
the whole dispatch behaves exactly as payload "OFF" — driving matching
lines to 0 and stopping matching running processes, as the concrete
instance shows. -/
theorem C10_theorem :
    decodePayload [] = 0
      ∧ (∀ (topic : List Char) (subs : List SUBinfo) (gpios : List GPIOinfo)
          (cmds : List CMDinfo) (forks : Nat → Int) (fc : Nat),
          process_message topic [] subs gpios cmds forks fc
            = process_message topic offChars subs gpios cmds forks fc)
      ∧ (∀ (topic : List Char) (subs : List SUBinfo) (gpios : List GPIOinfo)
          (cmds : List CMDinfo) (forks : Nat → Int) (fc : Nat),
          (process_message topic [] subs gpios cmds forks fc).isSome = true)
      ∧ process_message tChars [] [subT] [gpioL] [cmdRun] forks9 0
          = some ([{ cmdRun with running := false }],
                  [Event.setLine 0 0, Event.termChild 0 5], 0) := by
  have h1 : decodePayload ([] : List Char) = 0 := by decide
  have h2 : decodePayload offChars = 0 := by decide
  refine ⟨h1, ?_, ?_, by decide⟩
  · intro topic subs gpios cmds forks fc
    simp only [process_message, h1, h2]
  · intro topic subs gpios cmds forks fc
    simp [process_message, h1]
